import Mathlib

/-!
# Verification of `scripts/update_positioning.py`

Shallow embedding of the table-driven text-substitution tool: the pure
substitution engine `apply_replacements` and the driver loop of `main`
(file iteration, reporting, conditional persistence, exit status).

Strings are modelled by Lean `String` (a list of characters); Python's
`str.replace` (replace all non-overlapping occurrences, scanning left to
right, with the empty pattern inserting at every character boundary) and
Python's substring test `old in text` (always true for the empty string)
are embedded explicitly below.
-/

namespace UpdatePositioning

/-- `containsSub o t` — does `o` occur as a contiguous sublist of `t`?
Embeds Python's `old in text` on the character lists (true when `o = []`,
as in Python). -/
def containsSub (o : List Char) : List Char → Bool
  | [] => o.isPrefixOf []
  | c :: t => o.isPrefixOf (c :: t) || containsSub o t

/-- Python `old in text` for strings. -/
def strContains (text old : String) : Bool :=
  containsSub old.data text.data

/-- Python `text.replace(old, new)` for a non-empty `old`: scan left to
right; at a position where `old` is a prefix of the remaining text, emit
`new` and skip past the occurrence (non-overlapping); otherwise emit the
character and continue.  The scan is driven by a fuel counter for
structural recursion: every step consumes one fuel and at least one
character (`o` is non-empty), so fuel equal to the text length, as
supplied by `pyReplace`, always suffices and the `0` arm is unreachable
on non-empty text. -/
def replaceNEAux (o n : List Char) : Nat → List Char → List Char
  | _, [] => []
  | 0, l => l
  | fuel + 1, c :: t =>
    if o.isPrefixOf (c :: t) then n ++ replaceNEAux o n fuel (t.drop (o.length - 1))
    else c :: replaceNEAux o n fuel t

/-- Python `text.replace(old, new)` for `old = ""`: insert `new` at every
character boundary, including before the first character and after the
last (`"abc".replace("", "-") == "-a-b-c-"`). -/
def replaceEmptyAux (n : List Char) : List Char → List Char
  | [] => n
  | c :: t => n ++ c :: replaceEmptyAux n t

/-- Python `text.replace(old, new)`. -/
def pyReplace (text old new : String) : String :=
  if old.data.isEmpty then String.mk (replaceEmptyAux new.data text.data)
  else String.mk (replaceNEAux old.data new.data text.data.length text.data)

/-- The `Replacement` dataclass of the script: one exact old → new
substitution with a reporting label. -/
structure Replacement where
  old : String
  new : String
  label : String
deriving DecidableEq

/-- `apply_replacements(text, replacements)` from the script: for each
rule in order, skip it when `repl.old not in text`, otherwise replace all
occurrences (`text = text.replace(repl.old, repl.new)`) and append the
label; return the final text and the labels of the rules that fired, in
rule order. -/
def apply_replacements : String → List Replacement → String × List String
  | text, [] => (text, [])
  | text, r :: rs =>
    if strContains text r.old then
      let res := apply_replacements (pyReplace text r.old r.new) rs
      (res.1, r.label :: res.2)
    else
      apply_replacements text rs

/-! ## Spec-level restatement of the engine

The spec describes the engine as two separate sequences: the final text
after the rules have been folded over the progressively-updated text, and
the labels of the rules that matched, in rule order.  These are stated as
two independent recursions and proved to coincide with the source's
single pass. -/

/-- The final text: each rule in order rewrites the current text when its
`old` occurs, and is skipped otherwise. -/
def specTextAfter : String → List Replacement → String
  | t, [] => t
  | t, r :: rs =>
    specTextAfter (if strContains t r.old then pyReplace t r.old r.new else t) rs

/-- The applied labels: the labels of exactly those rules whose `old`
occurs in the current (progressively-updated) text at their turn, in rule
order. -/
def specAppliedLabels : String → List Replacement → List String
  | _, [] => []
  | t, r :: rs =>
    if strContains t r.old then r.label :: specAppliedLabels (pyReplace t r.old r.new) rs
    else specAppliedLabels t rs

/-! ## The driver (`main`)

The filesystem is modelled as an association list from (ROOT-relative)
paths to file contents; a path absent from the list does not exist.  The
driver's console output is modelled as the list of printed lines, and the
write calls it performs are additionally recorded in a trace so that
"does not write" is expressible.  The hard-coded table `targets` is a
parameter: the driver logic is identical for every table, and the
`dict[Path, list[Replacement]]` built by `add` keys the table by path, so
the concrete table's paths are pairwise distinct. -/

/-- The filesystem: paths with their current contents. -/
abbrev FS := List (String × String)

/-- `path.write_text(content)`: update the stored contents of `p`. -/
def writeFile (fs : FS) (p c : String) : FS :=
  fs.map (fun e => if e.1 = p then (p, c) else e)

/-- One entry of the `targets` table: a path and its ordered rules. -/
abbrev Target := String × List Replacement

/-- `print(f"[WARN] Missing: {path}")`. -/
def warnLine (p : String) : String := "[WARN] Missing: " ++ p

/-- `print(f"[OK]   {path} (no changes)")`. -/
def okLine (p : String) : String := "[OK]   " ++ p ++ " (no changes)"

/-- `print(f"[EDIT] {path} -> {', '.join(changed)}")`. -/
def editLine (p : String) (labels : List String) : String :=
  "[EDIT] " ++ p ++ " -> " ++ String.intercalate ", " labels

/-- `print("No changes applied.")`. -/
def summaryLine : String := "No changes applied."

/-- State accumulated by the `for path, repls in targets.items()` loop:
the filesystem, the printed lines, the `any_changed` flag, and the trace
of `write_text` calls performed. -/
structure LoopResult where
  fs : FS
  lines : List String
  anyChanged : Bool
  writes : List (String × String)
deriving DecidableEq

/-- The driver loop over the remaining targets.  For each target: warn
and continue when the path does not exist; report `[OK]` when no label
matched; otherwise report `[EDIT]`, set `any_changed`, and (unless in
check mode) write the updated text back. -/
def processTargets (check : Bool) : FS → List Target → LoopResult
  | fs, [] => ⟨fs, [], false, []⟩
  | fs, (p, rs) :: rest =>
    match List.lookup p fs with
    | none =>
      let r := processTargets check fs rest
      ⟨r.fs, warnLine p :: r.lines, r.anyChanged, r.writes⟩
    | some content =>
      let res := apply_replacements content rs
      if res.2.isEmpty then
        let r := processTargets check fs rest
        ⟨r.fs, okLine p :: r.lines, r.anyChanged, r.writes⟩
      else
        if check then
          let r := processTargets check fs rest
          ⟨r.fs, editLine p res.2 :: r.lines, true, r.writes⟩
        else
          let r := processTargets check (writeFile fs p res.1) rest
          ⟨r.fs, editLine p res.2 :: r.lines, true, (p, res.1) :: r.writes⟩

/-- Result of a whole run of `main`. -/
structure RunResult where
  fs : FS
  output : List String
  exitCode : Nat
  writes : List (String × String)
deriving DecidableEq

/-- `main()`: run the loop, then — exactly as in the source — return 0
immediately in check mode, and otherwise print the summary line when no
file changed before returning 0. -/
def runMain (check : Bool) (targets : List Target) (fs : FS) : RunResult :=
  let r := processTargets check fs targets
  if check then ⟨r.fs, r.lines, 0, r.writes⟩
  else if r.anyChanged then ⟨r.fs, r.lines, 0, r.writes⟩
  else ⟨r.fs, r.lines ++ [summaryLine], 0, r.writes⟩

/-! ## Concrete fixtures used by counterexamples and witnesses -/

/-- Rule list refuting C4 as stated: neither rule's `new` contains the
other rule's `old` as a substring, yet a replacement creates a new
occurrence of the first rule's `old` by concatenation at a boundary. -/
def rulesC4 : List Replacement := [⟨"aa", "z", "one"⟩, ⟨"b", "a", "two"⟩]

/-- A one-file table whose single rule does not match the file below. -/
def tsNoMatch : List Target := [("p", [⟨"q", "r", "lab"⟩])]

/-- A filesystem holding that one file. -/
def fsOne : FS := [("p", "x")]

/-! ## Engine lemmas -/

/-- The empty pattern occurs in every text, as Python's `"" in text`. -/
lemma containsSub_nil_left (t : List Char) : containsSub [] t = true := by
  cases t <;> simp [containsSub, List.isPrefixOf]

/-- Inserting at every boundary, written with `flatMap`. -/
lemma replaceEmptyAux_eq (n : List Char) (l : List Char) :
    replaceEmptyAux n l = n ++ l.flatMap (fun c => c :: n) := by
  induction l with
  | nil => simp [replaceEmptyAux]
  | cons c t ih => simp [replaceEmptyAux, ih]

/-- Processing a concatenated rule list processes the first part, then the
second part on the intermediate text, concatenating the label lists. -/
lemma apply_replacements_append (pre post : List Replacement) (t : String) :
    apply_replacements t (pre ++ post) =
      ((apply_replacements (apply_replacements t pre).1 post).1,
        (apply_replacements t pre).2 ++
          (apply_replacements (apply_replacements t pre).1 post).2) := by
  induction pre generalizing t with
  | nil => simp [apply_replacements]
  | cons r rs ih =>
    by_cases h : strContains t r.old = true
    · simp [apply_replacements, h, ih]
    · simp only [Bool.not_eq_true] at h
      simp [apply_replacements, h, ih]

/-- A rule list none of whose `old` texts occur leaves the text unchanged
and applies no label. -/
lemma apply_replacements_of_no_match (rs : List Replacement) (t : String)
    (h : ∀ r ∈ rs, strContains t r.old = false) :
    apply_replacements t rs = (t, []) := by
  induction rs with
  | nil => rfl
  | cons r rest ih =>
    have hr : strContains t r.old = false := h r (List.mem_cons_self r rest)
    simp only [apply_replacements, hr, Bool.false_eq_true, if_false]
    exact ih fun r' hr' => h r' (List.mem_cons_of_mem r hr')

/-! ## Driver lemmas -/

/-- Unfolding `writeFile` over a cons cell. -/
lemma writeFile_cons (k v p c : String) (t : FS) :
    writeFile ((k, v) :: t) p c = (if k = p then (p, c) else (k, v)) :: writeFile t p c := rfl

/-- Unfolding `List.lookup` over a cons cell. -/
lemma lookup_cons (q k v : String) (t : FS) :
    List.lookup q ((k, v) :: t) = if q == k then some v else List.lookup q t := by
  by_cases h : (q == k) = true
  · simp [List.lookup, h]
  · simp only [Bool.not_eq_true] at h
    simp [List.lookup, h]

/-- Writing one file leaves every other path's contents unchanged. -/
lemma lookup_writeFile_ne (fs : FS) (p c q : String) (h : q ≠ p) :
    List.lookup q (writeFile fs p c) = List.lookup q fs := by
  induction fs with
  | nil => rfl
  | cons e t ih =>
    obtain ⟨k, v⟩ := e
    rw [writeFile_cons]
    by_cases hk : k = p
    · rw [if_pos hk, lookup_cons, lookup_cons]
      subst hk
      have hq : (q == k) = false := beq_eq_false_iff_ne.mpr h
      simp [hq, ih]
    · rw [if_neg hk, lookup_cons, lookup_cons, ih]

/-- In check mode the loop neither changes the filesystem nor performs a
single write. -/
lemma processTargets_check_frame (ts : List Target) (fs : FS) :
    (processTargets true fs ts).fs = fs ∧ (processTargets true fs ts).writes = [] := by
  induction ts generalizing fs with
  | nil => exact ⟨rfl, rfl⟩
  | cons tg rest ih =>
    obtain ⟨p, rs⟩ := tg
    cases h : List.lookup p fs with
    | none => simpa [processTargets, h] using ih fs
    | some content =>
      by_cases he : (apply_replacements content rs).2.isEmpty
      · simpa [processTargets, h, he] using ih fs
      · simpa [processTargets, h, he] using ih fs

/-- The check-mode loop's report depends only on the contents of the
paths it visits. -/
lemma processTargets_check_congr (ts : List Target) (fs₁ fs₂ : FS)
    (h : ∀ q ∈ ts.map Prod.fst, List.lookup q fs₁ = List.lookup q fs₂) :
    (processTargets true fs₁ ts).lines = (processTargets true fs₂ ts).lines ∧
      (processTargets true fs₁ ts).anyChanged = (processTargets true fs₂ ts).anyChanged := by
  induction ts generalizing fs₁ fs₂ with
  | nil => exact ⟨rfl, rfl⟩
  | cons tg rest ih =>
    obtain ⟨p, rs⟩ := tg
    have hp : List.lookup p fs₁ = List.lookup p fs₂ := h p (by simp)
    have hrest : ∀ q ∈ rest.map Prod.fst, List.lookup q fs₁ = List.lookup q fs₂ :=
      fun q hq => h q (by simp [hq])
    cases h2 : List.lookup p fs₂ with
    | none =>
      have h1 : List.lookup p fs₁ = none := hp.trans h2
      have := ih fs₁ fs₂ hrest
      simp [processTargets, h1, h2, this.1, this.2]
    | some content =>
      have h1 : List.lookup p fs₁ = some content := hp.trans h2
      have := ih fs₁ fs₂ hrest
      by_cases he : (apply_replacements content rs).2.isEmpty
      · simp [processTargets, h1, h2, he, this.1, this.2]
      · simp [processTargets, h1, h2, he, this.1, this.2]

/-- When the table's paths are pairwise distinct (as the source's `dict`
guarantees), apply mode and check mode print the same per-file lines and
agree on `any_changed`: a write to one path never feeds a later target. -/
lemma processTargets_parity (ts : List Target) (fs : FS)
    (hnd : (ts.map Prod.fst).Nodup) :
    (processTargets false fs ts).lines = (processTargets true fs ts).lines ∧
      (processTargets false fs ts).anyChanged = (processTargets true fs ts).anyChanged := by
  induction ts generalizing fs with
  | nil => exact ⟨rfl, rfl⟩
  | cons tg rest ih =>
    obtain ⟨p, rs⟩ := tg
    simp only [List.map_cons, List.nodup_cons] at hnd
    obtain ⟨hp, hrest⟩ := hnd
    cases h : List.lookup p fs with
    | none =>
      have := ih fs hrest
      simp [processTargets, h, this.1, this.2]
    | some content =>
      by_cases he : (apply_replacements content rs).2.isEmpty
      · have := ih fs hrest
        simp [processTargets, h, he, this.1, this.2]
      · have h1 := ih (writeFile fs p (apply_replacements content rs).1) hrest
        have h2 := processTargets_check_congr rest
          (writeFile fs p (apply_replacements content rs).1) fs
          (fun q hq => lookup_writeFile_ne fs p _ q (fun hqp => hp (hqp ▸ hq)))
        simp [processTargets, h, he, h1.1, h2.1]

/-- Every line the loop prints is a warning line, an unchanged line, or
an edit line. -/
lemma processTargets_lines_forms (check : Bool) (ts : List Target) (fs : FS) :
    ∀ line ∈ (processTargets check fs ts).lines,
      ∃ p, line = warnLine p ∨ line = okLine p ∨ ∃ labs, line = editLine p labs := by
  induction ts generalizing fs with
  | nil => simp [processTargets]
  | cons tg rest ih =>
    obtain ⟨p, rs⟩ := tg
    intro line hl
    cases h : List.lookup p fs with
    | none =>
      rw [processTargets] at hl
      simp only [h] at hl
      rcases List.mem_cons.mp hl with hh | ht
      · exact ⟨p, Or.inl hh⟩
      · exact ih fs line ht
    | some content =>
      rw [processTargets] at hl
      simp only [h] at hl
      by_cases he : (apply_replacements content rs).2.isEmpty
      · simp only [he, if_true] at hl
        rcases List.mem_cons.mp hl with hh | ht
        · exact ⟨p, Or.inr (Or.inl hh)⟩
        · exact ih fs line ht
      · simp only [he, Bool.false_eq_true, if_false] at hl
        cases check
        · simp only [Bool.false_eq_true, if_false] at hl
          rcases List.mem_cons.mp hl with hh | ht
          · exact ⟨p, Or.inr (Or.inr ⟨_, hh⟩)⟩
          · exact ih _ line ht
        · simp only [if_true] at hl
          rcases List.mem_cons.mp hl with hh | ht
          · exact ⟨p, Or.inr (Or.inr ⟨_, hh⟩)⟩
          · exact ih fs line ht

/-! ## Claims about the engine -/

/-- Claim C1: `apply_replacements` processes the rules in order against
the progressively-updated text: the returned text is the fold of the
matching rules' replace-all rewrites (`specTextAfter`), and the returned
labels are exactly the labels of the rules whose `old` occurred in the
current text at their turn, in rule order (`specAppliedLabels`). -/
theorem apply_replacements_correct (t : String) (rs : List Replacement) :
    apply_replacements t rs = (specTextAfter t rs, specAppliedLabels t rs) := by
  induction rs generalizing t with
  | nil => rfl
  | cons r rest ih =>
    by_cases h : strContains t r.old = true
    · simp [apply_replacements, specTextAfter, specAppliedLabels, h, ih]
    · simp only [Bool.not_eq_true] at h
      simp [apply_replacements, specTextAfter, specAppliedLabels, h, ih]

/-- Claim C5: a rule whose `old` does not occur in the current text at
its turn is skipped silently: the run is identical to the run without
that rule — the text at that step is unchanged, its label is not
recorded, and no error is signalled (the function is total). -/
theorem rule_skipped_when_absent (pre post : List Replacement)
    (r : Replacement) (t : String)
    (h : strContains (apply_replacements t pre).1 r.old = false) :
    apply_replacements t (pre ++ r :: post) = apply_replacements t (pre ++ post) := by
  rw [apply_replacements_append, apply_replacements_append]
  simp [apply_replacements, h]

/-- Claim C5, witness. -/
theorem rule_skipped_when_absent_witness :
    strContains (apply_replacements "<p>Hello world</p>" []).1 "Not present" = false ∧
      apply_replacements "<p>Hello world</p>" ([] ++ ⟨"Not present", "...", "a"⟩ :: []) =
        apply_replacements "<p>Hello world</p>" ([] ++ []) :=
  ⟨by decide, rule_skipped_when_absent [] [] ⟨"Not present", "...", "a"⟩
    "<p>Hello world</p>" (by decide)⟩

/-- Claim C8: the engine is deterministic — equal texts and equal rule
lists give equal results.  Purity holds by construction of the embedding:
`apply_replacements` is a total function of its two arguments alone,
reading and writing no external state (the driver's filesystem appears
nowhere in its type). -/
theorem apply_replacements_deterministic (t₁ t₂ : String)
    (rs₁ rs₂ : List Replacement) (ht : t₁ = t₂) (hr : rs₁ = rs₂) :
    apply_replacements t₁ rs₁ = apply_replacements t₂ rs₂ := by
  rw [ht, hr]

/-- Claim C8, witness. -/
theorem apply_replacements_deterministic_witness :
    ("ab" : String) = "ab" ∧ apply_replacements "ab" [⟨"a", "b", "l"⟩] =
      apply_replacements "ab" [⟨"a", "b", "l"⟩] :=
  ⟨rfl, apply_replacements_deterministic "ab" "ab" [⟨"a", "b", "l"⟩] [⟨"a", "b", "l"⟩] rfl rfl⟩

/-- Claim C9: a rule whose `old` is the empty string always matches
(Python's `"" in text` is true): its label is recorded, and the
replacement inserts `new` at every character boundary of the current
text, including before the first character and after the last. -/
theorem empty_old_rule (t n l : String) (rs : List Replacement) :
    apply_replacements t (⟨"", n, l⟩ :: rs) =
      ((apply_replacements (String.mk (n.data ++ t.data.flatMap (fun c => c :: n.data))) rs).1,
        l :: (apply_replacements (String.mk (n.data ++ t.data.flatMap (fun c => c :: n.data))) rs).2) := by
  have hc : strContains t "" = true := containsSub_nil_left t.data
  have hrepl : pyReplace t "" n = String.mk (n.data ++ t.data.flatMap (fun c => c :: n.data)) := by
    simp [pyReplace, replaceEmptyAux_eq]
  simp [apply_replacements, hc, hrepl]

/-- Claim C4, counterexample.  With `rulesC4`, no rule's `new` text
contains another rule's `old` text (`"b"` does not occur in `"z"`, `"aa"`
does not occur in `"a"`), so the claim's proviso holds; yet on input
`"ab"` one application gives `("aa", ["two"])` and a second application
rewrites it further to `("z", ["one"])`: the double application does not
equal the single one. -/
theorem double_apply_counterexample :
    strContains "z" "b" = false ∧ strContains "a" "aa" = false ∧
      apply_replacements (apply_replacements "ab" rulesC4).1 rulesC4 ≠
        apply_replacements "ab" rulesC4 := by
  refine ⟨by decide, by decide, ?_⟩
  decide

/-- Claim C4, amended.  Sequential replacement can reintroduce a rule's
`old` by concatenation at the edges of an inserted `new` even when no
rule's `new` contains any `old`, so the syntactic proviso is not
sufficient.  The semantic condition that is: when no rule's `old` occurs
in the text produced by the first application, a second application
returns that text unchanged and applies no labels. -/
theorem second_apply_fixed (t : String) (rs : List Replacement)
    (h : ∀ r ∈ rs, strContains (apply_replacements t rs).1 r.old = false) :
    apply_replacements (apply_replacements t rs).1 rs =
      ((apply_replacements t rs).1, []) :=
  apply_replacements_of_no_match rs (apply_replacements t rs).1 h

/-- Claim C4, witness. -/
theorem second_apply_fixed_witness :
    (∀ r ∈ [(⟨"Hello", "Goodbye", "x"⟩ : Replacement)],
        strContains (apply_replacements "Hello world" [⟨"Hello", "Goodbye", "x"⟩]).1 r.old = false) ∧
      apply_replacements (apply_replacements "Hello world" [⟨"Hello", "Goodbye", "x"⟩]).1
          [⟨"Hello", "Goodbye", "x"⟩] =
        ((apply_replacements "Hello world" [⟨"Hello", "Goodbye", "x"⟩]).1, []) :=
  ⟨by decide, second_apply_fixed "Hello world" [⟨"Hello", "Goodbye", "x"⟩] (by decide)⟩

/-! ## Claims about the driver -/

/-- Claim C2, amended: on a table with pairwise-distinct paths (as the
source's `dict` construction guarantees), check mode changes no file and
performs no write, and apply mode prints the same lines as check mode —
hence identical reported labels for every file — except that apply mode
alone appends the summary line when no file changed. -/
theorem check_apply_parity (ts : List Target) (fs : FS)
    (hnd : (ts.map Prod.fst).Nodup) :
    (runMain true ts fs).fs = fs ∧ (runMain true ts fs).writes = [] ∧
      ((runMain false ts fs).output = (runMain true ts fs).output ∨
        (runMain false ts fs).output = (runMain true ts fs).output ++ [summaryLine]) := by
  have hf := processTargets_check_frame ts fs
  have hp := processTargets_parity ts fs hnd
  refine ⟨by simp [runMain, hf.1], by simp [runMain, hf.2], ?_⟩
  by_cases ha : (processTargets false fs ts).anyChanged
  · left
    simp [runMain, ha, hp.1]
  · right
    simp [runMain, ha, hp.1]

/-- Claim C2, witness. -/
theorem check_apply_parity_witness :
    (tsNoMatch.map Prod.fst).Nodup ∧
      ((runMain true tsNoMatch fsOne).fs = fsOne ∧
        (runMain true tsNoMatch fsOne).writes = [] ∧
        ((runMain false tsNoMatch fsOne).output = (runMain true tsNoMatch fsOne).output ∨
          (runMain false tsNoMatch fsOne).output =
            (runMain true tsNoMatch fsOne).output ++ [summaryLine])) :=
  ⟨by decide, check_apply_parity tsNoMatch fsOne (by decide)⟩

/-- Claim C2, counterexample to byte-identical reporting: on a run where
no rule matches, apply mode prints the summary line and check mode does
not, so the two console outputs differ. -/
theorem reporting_not_byte_identical :
    (runMain false tsNoMatch fsOne).output ≠ (runMain true tsNoMatch fsOne).output := by
  decide

/-- Claim C3, amended: check mode prints exactly the per-file reports
(each a warning, unchanged, or edited-with-labels line) and never the
summary line; it is apply mode that, when no file changed, appends the
final summary line. -/
theorem dry_run_summary_behavior (ts : List Target) (fs : FS) :
    (runMain true ts fs).output = (processTargets true fs ts).lines ∧
      (∀ line ∈ (runMain true ts fs).output,
        ∃ p, line = warnLine p ∨ line = okLine p ∨ ∃ labs, line = editLine p labs) ∧
      ((processTargets false fs ts).anyChanged = false →
        (runMain false ts fs).output = (processTargets false fs ts).lines ++ [summaryLine]) := by
  refine ⟨rfl, ?_, ?_⟩
  · exact processTargets_lines_forms true ts fs
  · intro ha
    simp [runMain, ha]

/-- Claim C3, witness. -/
theorem dry_run_summary_behavior_witness :
    ((processTargets false fsOne tsNoMatch).anyChanged = false) ∧
      (runMain false tsNoMatch fsOne).output =
        (processTargets false fsOne tsNoMatch).lines ++ [summaryLine] :=
  ⟨by decide, (dry_run_summary_behavior tsNoMatch fsOne).2.2 (by decide)⟩

/-- Claim C3, counterexample: a dry run in which no file changed whose
output nevertheless contains no summary line — `main` returns in check
mode before reaching the summary print. -/
theorem dry_run_no_summary_counterexample :
    (processTargets true fsOne tsNoMatch).anyChanged = false ∧
      summaryLine ∉ (runMain true tsNoMatch fsOne).output := by
  decide

/-- Claim C6: a target path that does not exist produces exactly one
warning line and nothing else — the rest of the run is the run on the
remaining targets, no exception is modelled (the function is total), and
the exit status is 0. -/
theorem missing_file_warns_and_continues (check : Bool) (p : String)
    (rs : List Replacement) (rest : List Target) (fs : FS)
    (h : List.lookup p fs = none) :
    runMain check ((p, rs) :: rest) fs =
      ⟨(runMain check rest fs).fs, warnLine p :: (runMain check rest fs).output, 0,
        (runMain check rest fs).writes⟩ := by
  cases check
  · by_cases ha : (processTargets false fs rest).anyChanged
    · simp [runMain, processTargets, h, ha]
    · simp [runMain, processTargets, h, ha]
  · simp [runMain, processTargets, h]

/-- Claim C6, witness. -/
theorem missing_file_warns_and_continues_witness :
    List.lookup "absent" ([] : FS) = none ∧
      runMain true [("absent", [])] [] =
        ⟨(runMain true [] ([] : FS)).fs, warnLine "absent" :: (runMain true [] ([] : FS)).output, 0,
          (runMain true [] ([] : FS)).writes⟩ :=
  ⟨by decide, missing_file_warns_and_continues true "absent" [] [] [] (by decide)⟩

/-- Claim C7: in either mode, on any table and any filesystem, `main`
returns exit status 0. -/
theorem exit_code_always_zero (check : Bool) (ts : List Target) (fs : FS) :
    (runMain check ts fs).exitCode = 0 := by
  cases check
  · by_cases ha : (processTargets false fs ts).anyChanged
    · simp [runMain, ha]
    · simp [runMain, ha]
  · simp [runMain]

/-- Claim C10: in apply mode, an existing target file in which no rule
matched is reported `[OK]` and is not written at all: the whole run —
filesystem, write trace included — equals the run on the remaining
targets, with only the `[OK]` line added. -/
theorem no_write_when_no_match (p content : String) (rs : List Replacement)
    (rest : List Target) (fs : FS)
    (h : List.lookup p fs = some content)
    (hm : (apply_replacements content rs).2 = []) :
    runMain false ((p, rs) :: rest) fs =
      ⟨(runMain false rest fs).fs, okLine p :: (runMain false rest fs).output, 0,
        (runMain false rest fs).writes⟩ := by
  have he : (apply_replacements content rs).2.isEmpty = true := by simp [hm]
  by_cases ha : (processTargets false fs rest).anyChanged
  · simp [runMain, processTargets, h, he, ha]
  · simp [runMain, processTargets, h, he, ha]

/-- Claim C10, witness. -/
theorem no_write_when_no_match_witness :
    List.lookup "p" fsOne = some "x" ∧
      (apply_replacements "x" [⟨"q", "r", "lab"⟩]).2 = [] ∧
      runMain false tsNoMatch fsOne =
        ⟨(runMain false [] fsOne).fs, okLine "p" :: (runMain false [] fsOne).output, 0,
          (runMain false [] fsOne).writes⟩ :=
  ⟨by decide, by decide,
    no_write_when_no_match "p" "x" [⟨"q", "r", "lab"⟩] [] fsOne (by decide) (by decide)⟩

end UpdatePositioning
